import Mathlib

/-!
Verification of the Reversi engine (`reversi.py`).

The board is an N×N grid of integer cells (`-1` = player "x", `0` = empty,
`1` = player "o"), stored row-major as a flat list of length `N*N`, exactly
as numpy stores `self.state`.  All engine operations of the source are
embedded below as executable Lean functions:

* `is_in_board`, `has_occupied_neighbours`, `is_legal_action` mirror
  `_is_in_board`, `_has_occupied_neighbours`, `_is_legal_action`;
* `flip_scan` mirrors the `while True` ray-walk of `step`, `step_flips`
  the per-direction accumulation, and `step` the whole move;
* `reset` / `init_game` mirror `reset` and the `__init__` assertions,
  with the call to `np.random.choice(2)` made explicit as a `coin : Bool`
  argument;
* `idx2coordinate` / `coordinate2idx` mirror `np.unravel_index` /
  `np.ravel_multi_index` on the shape `(N, N)`;
* `slide`, `cursor_select`, `play_cursor` and `session` mirror the
  interactive branch of `play` and the module-level game loop.
-/

namespace Reversi

/-- Token of the player rendered `o` (value `1` in the source). -/
def PlayerB : Int := 1

/-- Token of the player rendered `x` (value `-1` in the source). -/
def PlayerA : Int := -1

/-- The 8 unit directions, in the order produced by
`np.array(np.meshgrid([-1,0,1],[-1,0,1])).T.reshape(-1,2)` with the
row `(0,0)` removed (`self.neighbours`). -/
def neighbours : List (Int × Int) :=
  [(-1, -1), (-1, 0), (-1, 1), (0, -1), (0, 1), (1, -1), (1, 0), (1, 1)]

/-- `_is_in_board`: every component of the coordinate lies in `[0, N-1]`. -/
def is_in_board (N : Nat) (p : Int × Int) : Bool :=
  decide (0 ≤ p.1 ∧ p.1 ≤ (N : Int) - 1 ∧ 0 ≤ p.2 ∧ p.2 ≤ (N : Int) - 1)

/-- Row-major flat index of a coordinate, as numpy's 2-d indexing uses. -/
def flat (N : Nat) (p : Int × Int) : Nat :=
  p.1.toNat * N + p.2.toNat

/-- Read the board cell at coordinate `p` (used only at in-board points,
exactly like `self.state[coord]` in the source). -/
def bget (N : Nat) (b : List Int) (p : Int × Int) : Int :=
  b.getD (flat N p) 0

/-- Write the board cell at coordinate `p` (`self.state[c] = v`). -/
def bset (N : Nat) (b : List Int) (p : Int × Int) (v : Int) : List Int :=
  b.set (flat N p) v

/-- The engine state: board size, flat row-major board, current player and
the `steps_beyond_done` marker. -/
structure Game where
  N : Nat
  state : List Int
  cur_player : Int
  steps_beyond_done : Option Nat
deriving DecidableEq

/-- `_idx2coordinate`: `np.unravel_index(idx, (N, N))`. -/
def idx2coordinate (N : Nat) (idx : Nat) : Int × Int :=
  (((idx / N : Nat) : Int), ((idx % N : Nat) : Int))

/-- `_coordinate2idx`: `np.ravel_multi_index(coordinate, (N, N))`. -/
def coordinate2idx (N : Nat) (p : Int × Int) : Nat :=
  flat N p

/-- `_has_occupied_neighbours`: add each of the 8 offsets to the
coordinate, keep the in-board ones (rows filtered first, then columns),
and test whether any of them holds a nonzero cell. -/
def has_occupied_neighbours (g : Game) (coordinate : Int × Int) : Bool :=
  let ns := neighbours.map (fun d => (coordinate.1 + d.1, coordinate.2 + d.2))
  let ns := ns.filter (fun p => decide (0 ≤ p.1 ∧ p.1 < (g.N : Int)))
  let ns := ns.filter (fun p => decide (0 ≤ p.2 ∧ p.2 < (g.N : Int)))
  ns.any (fun p => bget g.N g.state p != 0)

/-- `_is_legal_action`: the action is in the `Discrete(N^2)` action space,
the target cell is empty, and it has an occupied neighbour. -/
def is_legal_action (g : Game) (action : Int) : Bool :=
  if ¬ (0 ≤ action ∧ action < ((g.N * g.N : Nat) : Int)) then false
  else if g.state.getD action.toNat 0 != 0 then false
  else has_occupied_neighbours g (idx2coordinate g.N action.toNat)

/-- The `while True` ray-walk of `step`: starting one step after `coord`
in direction `d`, accumulate opponent cells (`potential_flip` becomes true
at the first one), and report whether the walk ended on a current-player
cell (`verified_flip`) together with the accumulated coordinates.  The
source loop always terminates because the walk leaves the board; `fuel`
bounds the number of iterations and is called with more than enough. -/
def flip_scan (N : Nat) (b : List Int) (player : Int) (d : Int × Int) :
    Nat → (Int × Int) → Bool → List (Int × Int) → Bool × List (Int × Int)
  | 0, _, _, acc => (false, acc)
  | fuel + 1, coord, potential, acc =>
    let c := (coord.1 + d.1, coord.2 + d.2)
    if is_in_board N c then
      if potential then
        if bget N b c = -player then flip_scan N b player d fuel c true (acc ++ [c])
        else if bget N b c = player then (true, acc)
        else (false, acc)
      else
        if bget N b c = -player then flip_scan N b player d fuel c true (acc ++ [c])
        else (false, acc)
    else (false, acc)

/-- The flips contributed by one direction: the accumulated run when the
walk was verified, nothing otherwise. -/
def dir_flips (N : Nat) (b : List Int) (player : Int) (start d : Int × Int) :
    List (Int × Int) :=
  let r := flip_scan N b player d (N + 1) start false []
  if r.1 then r.2 else []

/-- `accumulated_flip_coords`: the flips of all 8 directions, in the order
of the direction loop of `step`. -/
def all_flips (N : Nat) (b : List Int) (player : Int) (start : Int × Int) :
    List (Int × Int) :=
  neighbours.foldl (fun acc d => acc ++ dir_flips N b player start d) []

/-- The flip coordinates computed by `step g action`: the board read by the
ray walks is the board with the mover's token already placed at the target,
exactly as in the source (`self.state.reshape(-1)[action] = self.cur_player`
happens before the direction loop). -/
def step_flips (g : Game) (action : Int) : List (Int × Int) :=
  all_flips g.N (g.state.set action.toNat g.cur_player) g.cur_player
    (idx2coordinate g.N action.toNat)

/-- The failure signal of a rejected move (the source prints
"Illegal action" and returns `False` to the caller). -/
inductive StepErr
  | illegalMove
deriving DecidableEq

/-- `step`: reject illegal actions without touching the state; otherwise
place the token, apply the flips of all 8 directions after the loop,
advance the player, and compute the terminal flag and reward. -/
def step (g : Game) (action : Int) : Game × Except StepErr (List Int × Int × Bool) :=
  if is_legal_action g action = false then (g, .error .illegalMove)
  else
    let b1 := g.state.set action.toNat g.cur_player
    let flips := step_flips g action
    let b2 := flips.foldl (fun b c => bset g.N b c g.cur_player) b1
    let done := b2.all (fun v => v != 0)
    let sum1 := b2.countP (fun v => v == -1)
    let sum2 := b2.countP (fun v => v == 1)
    let rs : Int × Option Nat :=
      if done = false then (((sum2 : Int) - (sum1 : Int)), g.steps_beyond_done)
      else if sum1 < sum2 then (1000, some 0)
      else (-1000, g.steps_beyond_done)
    ({ g with state := b2, cur_player := g.cur_player * -1, steps_beyond_done := rs.2 },
     .ok (b2, rs.1, done))

/-- `reset`: zero board, the four central tokens
(`state[p-1][p-1] = state[p][p] = 1`, `state[p-1][p] = state[p][p-1] = -1`
with `p = N/2`), cleared marker, and the starting player drawn from
`np.random.choice(2)`, made explicit as the `coin` argument. -/
def reset (N : Nat) (coin : Bool) : Game :=
  let p := N / 2
  let b0 := List.replicate (N * N) (0 : Int)
  let b1 := b0.set ((p - 1) * N + (p - 1)) 1
  let b2 := b1.set (p * N + p) 1
  let b3 := b2.set ((p - 1) * N + p) (-1)
  let b4 := b3.set (p * N + (p - 1)) (-1)
  { N := N, state := b4, cur_player := if coin then 1 else -1,
    steps_beyond_done := none }

/-- Failure of construction (the `assert`s of `__init__`). -/
inductive ConfigErr
  | configError
deriving DecidableEq

/-- The construction guard of `__init__` (named `init_game` here): reject odd `N` and `N < 4`, then build the start state. -/
def init_game (N : Nat) (coin : Bool) : Except ConfigErr Game :=
  if N % 2 != 0 then .error .configError
  else if N < 4 then .error .configError
  else .ok (reset N coin)

/-- The `j`-th cell of the ray from `start` in direction `d`
(`start + j * d`, componentwise); `ray start d 0 = start`. -/
def ray (start d : Int × Int) (j : Nat) : Int × Int :=
  (start.1 + (j : Int) * d.1, start.2 + (j : Int) * d.2)

/-- Spec-side capture rule, written from the spec's words: direction `d`
from `start` has a verified capture run of length `m` on board `b` when
`m ≥ 1`, the ray cells `1..m` are all in-board opponent tokens, and the
run is immediately bounded at cell `m+1` by an in-board current-player
token. -/
def RunOk (N : Nat) (b : List Int) (player : Int) (start d : Int × Int) (m : Nat) : Prop :=
  1 ≤ m ∧
  (∀ j, 1 ≤ j → j ≤ m →
    is_in_board N (ray start d j) = true ∧ bget N b (ray start d j) = -player) ∧
  is_in_board N (ray start d (m + 1)) = true ∧
  bget N b (ray start d (m + 1)) = player

/-- Well-formed engine state: the board has `N*N` cells and the current
player is one of the two token values.  Every state produced by `reset`
and preserved by `step` satisfies this. -/
def WF (g : Game) : Prop :=
  g.state.length = g.N * g.N ∧ (g.cur_player = 1 ∨ g.cur_player = -1)

/-- Keys delivered by the `keyboard.get_key` collaborator in the
interactive branch of `play`. -/
inductive Key
  | up
  | down
  | left
  | right
  | enter
  | other
deriving DecidableEq

/-- `np.argwhere(self.state == 0)[0]`: the first (row-major) empty cell. -/
def first_empty (N : Nat) (b : List Int) : Option (Int × Int) :=
  match (List.range (N * N)).find? (fun i => b.getD i 0 == 0) with
  | none => none
  | some i => some (idx2coordinate N i)

/-- The `continue` chain at the top of the interactive loop of `play`:
step from `coord` by `d`; while the new cell is in-board and occupied keep
stepping; stop on the first in-board empty cell, or keep the last visited
coordinate when the walk leaves the board.  `fuel` bounds the chain, which
in the source terminates because the walk leaves the board. -/
def slide (N : Nat) (b : List Int) : Nat → (Int × Int) → (Int × Int) → Int × Int
  | 0, coord, _ => coord
  | fuel + 1, coord, d =>
    let nc := (coord.1 + d.1, coord.2 + d.2)
    if is_in_board N nc then
      if bget N b nc != 0 then slide N b fuel nc d else nc
    else coord

/-- The key-handling loop of interactive `play`: before each key read the
cursor slides with the current delta; arrows set the delta, ENTER confirms
the current cursor cell, any other key is ignored.  Returns the confirmed
coordinate and the unconsumed keys, or `none` when the key supply runs
out (the source would block on `get_key`). -/
def cursor_select (g : Game) :
    (Int × Int) → (Int × Int) → List Key → Option ((Int × Int) × List Key)
  | _, _, [] => none
  | coord, d, k :: rest =>
    let c := slide g.N g.state (g.N + 1) coord d
    match k with
    | .enter => some (c, rest)
    | .up => cursor_select g c (-1, 0) rest
    | .down => cursor_select g c (1, 0) rest
    | .left => cursor_select g c (0, -1) rest
    | .right => cursor_select g c (0, 1) rest
    | .other => cursor_select g c d rest

/-- The Python value returned by `play`: either the 4-tuple returned by a
successful `step`, or the bare `False` that `step` returns on an illegal
action (which `play` passes through unchanged). -/
inductive PlayRet
  | retFalse
  | retTuple (st : List Int) (r : Int) (dn : Bool)
deriving DecidableEq

/-- Outcome of one call of `play(interactive=True)`. -/
inductive PlayOut
  | noEmpty
  | needKeys
  | played (g : Game) (ret : PlayRet) (rest : List Key)
deriving DecidableEq

/-- `play(interactive=True)`: start the cursor at the first empty cell
(`np.argwhere(self.state == 0)[0]`, an IndexError when the board is full),
run the key loop, then call `step` on the selected cell and return its
result unchanged. -/
def play_cursor (g : Game) (keys : List Key) : PlayOut :=
  match first_empty g.N g.state with
  | none => .noEmpty
  | some c0 =>
    match cursor_select g c0 (0, 0) keys with
    | none => .needKeys
    | some (coord, rest) =>
      let res := step g ((coordinate2idx g.N coord : Nat) : Int)
      match res.2 with
      | .error _ => .played res.1 .retFalse rest
      | .ok (st, r, dn) => .played res.1 (.retTuple st r dn) rest

/-- How the module-level `while True` loop ends. -/
inductive SessionOutcome
  | crashTypeErrorUnpack
  | crashNoEmpty
  | outOfKeys
  | outOfFuel
  | finished (r : Int)
deriving DecidableEq

/-- The module-level game loop:
`state, reward, done, _ = game.play(interactive=True)` then break when
done.  Unpacking the bare `False` that `play` forwards from an illegal
`step` raises a `TypeError`, modelled as `crashTypeErrorUnpack`. -/
def session : Nat → Game → List Key → SessionOutcome
  | 0, _, _ => .outOfFuel
  | fuel + 1, g, keys =>
    match play_cursor g keys with
    | .noEmpty => .crashNoEmpty
    | .needKeys => .outOfKeys
    | .played _ .retFalse _ => .crashTypeErrorUnpack
    | .played g1 (.retTuple _ r dn) rest =>
      if dn then .finished r else session fuel g1 rest

/-! ### Basic facts about coordinates and the flat index -/

lemma is_in_board_iff (N : Nat) (p : Int × Int) :
    is_in_board N p = true ↔
      0 ≤ p.1 ∧ p.1 ≤ (N : Int) - 1 ∧ 0 ≤ p.2 ∧ p.2 ≤ (N : Int) - 1 := by
  simp [is_in_board]

lemma flat_inj {N : Nat} {p q : Int × Int} (hp : is_in_board N p = true)
    (hq : is_in_board N q = true) (h : flat N p = flat N q) : p = q := by
  rw [is_in_board_iff] at hp hq
  obtain ⟨hp1, hp2, hp3, hp4⟩ := hp
  obtain ⟨hq1, hq2, hq3, hq4⟩ := hq
  have hpc : p.2.toNat < N := by omega
  have hqc : q.2.toNat < N := by omega
  have hN : 0 < N := by omega
  unfold flat at h
  have hc : p.2.toNat = q.2.toNat := by
    have e1 : (p.2.toNat * 1 + p.1.toNat * N) % N = (q.2.toNat * 1 + q.1.toNat * N) % N := by
      rw [mul_one, mul_one, Nat.add_comm, Nat.add_comm q.2.toNat, h]
    rw [Nat.add_mul_mod_self_right, Nat.add_mul_mod_self_right, mul_one, mul_one,
      Nat.mod_eq_of_lt hpc, Nat.mod_eq_of_lt hqc] at e1
    exact e1
  have hr : p.1.toNat = q.1.toNat := by
    have h2 : p.1.toNat * N = q.1.toNat * N := by omega
    exact Nat.eq_of_mul_eq_mul_right hN h2
  have e1 : p.1 = q.1 := by
    rw [← Int.toNat_of_nonneg hp1, ← Int.toNat_of_nonneg hq1, hr]
  have e2 : p.2 = q.2 := by
    rw [← Int.toNat_of_nonneg hp3, ← Int.toNat_of_nonneg hq3, hc]
  exact Prod.ext e1 e2

lemma idx2coordinate_in_board {N i : Nat} (h : i < N * N) :
    is_in_board N (idx2coordinate N i) = true := by
  have hN : 0 < N := by
    rcases Nat.eq_zero_or_pos N with h0 | h0
    · subst h0; simp at h
    · exact h0
  have h1 : i / N < N := by
    rw [Nat.div_lt_iff_lt_mul hN]; exact h
  have h2 : i % N < N := Nat.mod_lt _ hN
  rw [is_in_board_iff, idx2coordinate]
  generalize hr : i / N = r at h1
  generalize hc : i % N = c at h2
  simp only []
  omega

lemma flat_idx2coordinate (N i : Nat) :
    flat N (idx2coordinate N i) = i := by
  unfold flat idx2coordinate
  simp only [Int.toNat_natCast]
  rw [Nat.mul_comm (i / N) N]
  exact Nat.div_add_mod i N

lemma getD_set_ne (l : List Int) {i j : Nat} (v : Int) (h : i ≠ j) :
    (l.set i v).getD j 0 = l.getD j 0 := by
  rw [List.getD_eq_getElem?_getD, List.getD_eq_getElem?_getD, List.getElem?_set_ne h]

lemma getD_set_self (l : List Int) {i : Nat} (v : Int) (h : i < l.length) :
    (l.set i v).getD i 0 = v := by
  rw [List.getD_eq_getElem?_getD, List.getElem?_set_eq_of_lt v h]
  rfl

/-! ### C8: coordinate conversion -/

/-- C8: coordinate↔index conversion is a pure bijection on the board's
cells: for every valid index `i < N²`, converting to a coordinate and back
yields `i`, the coordinate is a cell of the board, and no other valid index
maps to the same coordinate. -/
theorem coordinate_conversion_bijective (N i : Nat) (h : i < N * N) :
    coordinate2idx N (idx2coordinate N i) = i ∧
    is_in_board N (idx2coordinate N i) = true ∧
    ∀ j, j < N * N → idx2coordinate N j = idx2coordinate N i → j = i := by
  refine ⟨flat_idx2coordinate N i, idx2coordinate_in_board h, ?_⟩
  intro j hj he
  have h2 := congrArg (flat N) he
  rw [flat_idx2coordinate N j, flat_idx2coordinate N i] at h2
  exact h2

/-- Witness for C8 at `N = 4`, `i = 7`. -/
theorem coordinate_conversion_bijective_witness :
    coordinate2idx 4 (idx2coordinate 4 7) = 7 :=
  (coordinate_conversion_bijective 4 7 (by decide)).1

/-! ### C2: the legality predicate -/

lemma has_occupied_neighbours_iff (g : Game) (c : Int × Int) :
    has_occupied_neighbours g c = true ↔
      ∃ d ∈ neighbours,
        is_in_board g.N (c.1 + d.1, c.2 + d.2) = true ∧
        bget g.N g.state (c.1 + d.1, c.2 + d.2) ≠ 0 := by
  unfold has_occupied_neighbours
  simp only [List.any_eq_true, List.mem_filter, List.mem_map, bne_iff_ne]
  constructor
  · rintro ⟨p, ⟨⟨⟨d, hd, rfl⟩, h1⟩, h2⟩, h3⟩
    refine ⟨d, hd, ?_, h3⟩
    rw [is_in_board_iff]
    simp only [decide_eq_true_eq] at h1 h2
    omega
  · rintro ⟨d, hd, h1, h3⟩
    rw [is_in_board_iff] at h1
    refine ⟨(c.1 + d.1, c.2 + d.2), ⟨⟨⟨d, hd, rfl⟩, ?_⟩, ?_⟩, h3⟩
    · simp only [decide_eq_true_eq]; omega
    · simp only [decide_eq_true_eq]; omega

/-- C2: `is_legal_action` returns `true` iff the action is a valid index
in `[0, N²)`, the target cell is currently empty, and at least one of the
target's in-board grid-adjacent neighbours is occupied (off-board
neighbours being ignored). -/
theorem is_legal_action_iff (g : Game) (action : Int) :
    is_legal_action g action = true ↔
      (0 ≤ action ∧ action < ((g.N * g.N : Nat) : Int)) ∧
      g.state.getD action.toNat 0 = 0 ∧
      ∃ d ∈ neighbours,
        is_in_board g.N
          ((idx2coordinate g.N action.toNat).1 + d.1,
           (idx2coordinate g.N action.toNat).2 + d.2) = true ∧
        bget g.N g.state
          ((idx2coordinate g.N action.toNat).1 + d.1,
           (idx2coordinate g.N action.toNat).2 + d.2) ≠ 0 := by
  unfold is_legal_action
  by_cases h1 : 0 ≤ action ∧ action < ((g.N * g.N : Nat) : Int)
  · rw [if_neg (not_not.mpr h1)]
    by_cases h2 : g.state.getD action.toNat 0 = 0
    · have hb : (g.state.getD action.toNat 0 != 0) = false := by
        rw [h2]; decide
      rw [hb, if_neg Bool.false_ne_true, has_occupied_neighbours_iff]
      constructor
      · intro h
        exact ⟨h1, h2, h⟩
      · rintro ⟨-, -, h⟩
        exact h
    · have hb : (g.state.getD action.toNat 0 != 0) = true := bne_iff_ne.mpr h2
      rw [hb, if_pos rfl]
      simp only [Bool.false_eq_true, false_iff]
      intro hR
      exact h2 hR.2.1
  · rw [if_pos h1]
    simp only [Bool.false_eq_true, false_iff]
    intro hR
    exact h1 hR.1

/-! ### C3: illegal moves are rejected without mutation -/

/-- C3: when the legality predicate fails, `step` reports the illegal-move
failure to the caller and returns the engine state (board, current player,
terminal marker) completely unchanged. -/
theorem step_illegal_no_mutation (g : Game) (action : Int)
    (h : is_legal_action g action = false) :
    step g action = (g, Except.error StepErr.illegalMove) := by
  simp [step, h]

/-- Witness for C3: action 5 targets the occupied centre cell `(1,1)`. -/
theorem step_illegal_no_mutation_witness :
    step (reset 4 true) 5 = (reset 4 true, Except.error StepErr.illegalMove) :=
  step_illegal_no_mutation (reset 4 true) 5 (by decide)

/-! ### C6: player alternation -/

/-- C6: the current player changes to the opponent exactly once per
accepted move, and never changes on a rejected one. -/
theorem step_player_alternation (g : Game) (action : Int)
    (hpl : g.cur_player = 1 ∨ g.cur_player = -1) :
    (is_legal_action g action = true →
      (step g action).1.cur_player = -g.cur_player ∧
      (step g action).1.cur_player ≠ g.cur_player) ∧
    (is_legal_action g action = false → (step g action).1 = g) := by
  constructor
  · intro h
    have hstep : (step g action).1.cur_player = g.cur_player * -1 := by
      simp [step, h]
    rw [hstep]
    constructor
    · exact mul_neg_one g.cur_player
    · rcases hpl with h1 | h1 <;> rw [h1] <;> decide
  · intro h
    simp [step, h]

/-- Witness for C6 at the initial board with action 1. -/
theorem step_player_alternation_witness :
    (step (reset 4 true) 1).1.cur_player = -(reset 4 true).cur_player :=
  ((step_player_alternation (reset 4 true) 1 (by decide)).1 (by decide)).1

/-! ### C5: construction and the start state -/

lemma getD_replicate_zero (n j : Nat) : (List.replicate n (0 : Int)).getD j 0 = 0 := by
  rw [List.getD_eq_getElem?_getD, List.getElem?_replicate]
  split <;> rfl

lemma flat_natCast (N x y : Nat) : flat N (((x : Nat) : Int), ((y : Nat) : Int)) = x * N + y := by
  simp [flat, Int.toNat_natCast]

lemma flat_nat_inj {N r1 c1 r2 c2 : Nat} (h1 : c1 < N) (h2 : c2 < N)
    (h : r1 * N + c1 = r2 * N + c2) : r1 = r2 ∧ c1 = c2 := by
  have hN : 0 < N := by omega
  have hc : c1 = c2 := by
    have e1 : (c1 + r1 * N) % N = (c2 + r2 * N) % N := by
      rw [Nat.add_comm c1, Nat.add_comm c2, h]
    rw [Nat.add_mul_mod_self_right, Nat.add_mul_mod_self_right,
      Nat.mod_eq_of_lt h1, Nat.mod_eq_of_lt h2] at e1
    exact e1
  refine ⟨?_, hc⟩
  have h2 : r1 * N = r2 * N := by omega
  exact Nat.eq_of_mul_eq_mul_right hN h2

/-- Cell values of the start board written as one set-chain. -/
lemma board4_getD (M i1 i2 i3 i4 : Nat) (v1 v2 v3 v4 : Int)
    (l1 : i1 < M) (l2 : i2 < M) (l3 : i3 < M) (l4 : i4 < M) :
    ∀ j, (((((List.replicate M (0 : Int)).set i1 v1).set i2 v2).set i3 v3).set i4 v4).getD j 0 =
      if j = i4 then v4 else if j = i3 then v3 else if j = i2 then v2 else
        if j = i1 then v1 else 0 := by
  intro j
  have len3 : ((((List.replicate M (0 : Int)).set i1 v1).set i2 v2).set i3 v3).length = M := by
    simp
  have len2 : (((List.replicate M (0 : Int)).set i1 v1).set i2 v2).length = M := by simp
  have len1 : ((List.replicate M (0 : Int)).set i1 v1).length = M := by simp
  have len0 : (List.replicate M (0 : Int)).length = M := by simp
  by_cases h4 : j = i4
  · subst h4
    rw [getD_set_self _ _ (by rw [len3]; exact l4), if_pos rfl]
  · rw [getD_set_ne _ _ (fun he => h4 he.symm), if_neg h4]
    by_cases h3 : j = i3
    · subst h3
      rw [getD_set_self _ _ (by rw [len2]; exact l3), if_pos rfl]
    · rw [getD_set_ne _ _ (fun he => h3 he.symm), if_neg h3]
      by_cases h2 : j = i2
      · subst h2
        rw [getD_set_self _ _ (by rw [len1]; exact l2), if_pos rfl]
      · rw [getD_set_ne _ _ (fun he => h2 he.symm), if_neg h2]
        by_cases h1 : j = i1
        · subst h1
          rw [getD_set_self _ _ (by rw [len0]; exact l1), if_pos rfl]
        · rw [getD_set_ne _ _ (fun he => h1 he.symm), if_neg h1]
          exact getD_replicate_zero M j

/-- Occupancy counts of the start board. -/
lemma board4_counts (M i1 i2 i3 i4 : Nat) (v1 v2 v3 v4 : Int)
    (l1 : i1 < M) (l2 : i2 < M) (l3 : i3 < M) (l4 : i4 < M)
    (n12 : i1 ≠ i2) (n13 : i1 ≠ i3) (n14 : i1 ≠ i4)
    (n23 : i2 ≠ i3) (n24 : i2 ≠ i4) (n34 : i3 ≠ i4)
    (hv1 : v1 ≠ 0) (hv2 : v2 ≠ 0) (hv3 : v3 ≠ 0) (hv4 : v4 ≠ 0) :
    (((((List.replicate M (0 : Int)).set i1 v1).set i2 v2).set i3 v3).set i4 v4).countP
        (fun v => v != 0) = 4 ∧
    (((((List.replicate M (0 : Int)).set i1 v1).set i2 v2).set i3 v3).set i4 v4).countP
        (fun v => v == 0) = M - 4 ∧
    (((((List.replicate M (0 : Int)).set i1 v1).set i2 v2).set i3 v3).set i4 v4).length = M := by
  have len0 : (List.replicate M (0 : Int)).length = M := by simp
  have len1 : ((List.replicate M (0 : Int)).set i1 v1).length = M := by simp
  have len2 : (((List.replicate M (0 : Int)).set i1 v1).set i2 v2).length = M := by simp
  have len3 : ((((List.replicate M (0 : Int)).set i1 v1).set i2 v2).set i3 v3).length = M := by
    simp
  -- cell values of the partial chains at the indices about to be set
  have e1 : (List.replicate M (0 : Int)).getD i1 0 = 0 := getD_replicate_zero M i1
  have e2 : ((List.replicate M (0 : Int)).set i1 v1).getD i2 0 = 0 := by
    rw [getD_set_ne _ _ n12]
    exact getD_replicate_zero M i2
  have e3 : (((List.replicate M (0 : Int)).set i1 v1).set i2 v2).getD i3 0 = 0 := by
    rw [getD_set_ne _ _ n23, getD_set_ne _ _ n13]
    exact getD_replicate_zero M i3
  have e4 : ((((List.replicate M (0 : Int)).set i1 v1).set i2 v2).set i3 v3).getD i4 0 = 0 := by
    rw [getD_set_ne _ _ n34, getD_set_ne _ _ n24, getD_set_ne _ _ n14]
    exact getD_replicate_zero M i4
  have he1 : i1 < (List.replicate M (0 : Int)).length := by rw [len0]; exact l1
  have he2 : i2 < ((List.replicate M (0 : Int)).set i1 v1).length := by rw [len1]; exact l2
  have he3 : i3 < (((List.replicate M (0 : Int)).set i1 v1).set i2 v2).length := by
    rw [len2]; exact l3
  have he4 : i4 <
      ((((List.replicate M (0 : Int)).set i1 v1).set i2 v2).set i3 v3).length := by
    rw [len3]; exact l4
  have ge1 := List.getD_eq_getElem (List.replicate M (0 : Int)) 0 he1
  have ge2 := List.getD_eq_getElem ((List.replicate M (0 : Int)).set i1 v1) 0 he2
  have ge3 := List.getD_eq_getElem (((List.replicate M (0 : Int)).set i1 v1).set i2 v2) 0 he3
  have ge4 := List.getD_eq_getElem
    ((((List.replicate M (0 : Int)).set i1 v1).set i2 v2).set i3 v3) 0 he4
  refine ⟨?_, ?_, by simp⟩
  · have c0 : (List.replicate M (0 : Int)).countP (fun v => v != 0) = 0 := by
      rw [List.countP_replicate]; simp
    rw [List.countP_set _ _ _ _ he4, List.countP_set _ _ _ _ he3,
      List.countP_set _ _ _ _ he2, List.countP_set _ _ _ _ he1, c0,
      ← ge1, ← ge2, ← ge3, ← ge4, e1, e2, e3, e4]
    simp [bne_iff_ne, hv1, hv2, hv3, hv4]
  · have c0 : (List.replicate M (0 : Int)).countP (fun v => v == 0) = M := by
      rw [List.countP_replicate]; simp
    rw [List.countP_set _ _ _ _ he4, List.countP_set _ _ _ _ he3,
      List.countP_set _ _ _ _ he2, List.countP_set _ _ _ _ he1, c0,
      ← ge1, ← ge2, ← ge3, ← ge4, e1, e2, e3, e4]
    have b1 : ((v1 == (0 : Int)) = true) ↔ False := by simp [hv1]
    have b2 : ((v2 == (0 : Int)) = true) ↔ False := by simp [hv2]
    have b3 : ((v3 == (0 : Int)) = true) ↔ False := by simp [hv3]
    have b4 : ((v4 == (0 : Int)) = true) ↔ False := by simp [hv4]
    simp only [b1, b2, b3, b4, if_false, beq_self_eq_true, if_true]
    omega

/-- C5: `init_game` (the `__init__` guard) fails with the configuration
error when `N` is odd or `N < 4`; for every even `N ≥ 4` it yields an
`N×N` board with exactly 4 occupied cells and `N²−4` empty cells, the
occupied cells being two diagonal pairs of opposite players at the board
centre, and the starting player is the image of the uniformly random
two-valued draw `coin` (so each player starts with probability 1/2). -/
theorem init_game_spec (N : Nat) (coin : Bool) :
    (N % 2 = 1 ∨ N < 4 → init_game N coin = Except.error ConfigErr.configError) ∧
    (N % 2 = 0 → 4 ≤ N →
      ∃ g, init_game N coin = Except.ok g ∧
        g.N = N ∧
        g.state.length = N * N ∧
        g.state.countP (fun v => v != 0) = 4 ∧
        g.state.countP (fun v => v == 0) = N * N - 4 ∧
        bget N g.state (((N / 2 - 1 : Nat) : Int), ((N / 2 - 1 : Nat) : Int)) = PlayerB ∧
        bget N g.state (((N / 2 : Nat) : Int), ((N / 2 : Nat) : Int)) = PlayerB ∧
        bget N g.state (((N / 2 - 1 : Nat) : Int), ((N / 2 : Nat) : Int)) = PlayerA ∧
        bget N g.state (((N / 2 : Nat) : Int), ((N / 2 - 1 : Nat) : Int)) = PlayerA ∧
        (∀ r c : Nat, r < N → c < N →
          ¬ ((r = N / 2 - 1 ∨ r = N / 2) ∧ (c = N / 2 - 1 ∨ c = N / 2)) →
          bget N g.state ((r : Int), (c : Int)) = 0) ∧
        g.cur_player = (if coin then PlayerB else PlayerA)) := by
  constructor
  · intro h
    unfold init_game
    by_cases he : N % 2 = 0
    · have h0 : (N % 2 != 0) = false := by rw [he]; decide
      rw [h0, if_neg Bool.false_ne_true, if_pos (by omega)]
    · have h1 : (N % 2 != 0) = true := bne_iff_ne.mpr he
      rw [h1, if_pos rfl]
  · intro heven h4
    have h0 : (N % 2 != 0) = false := by rw [heven]; decide
    have hp2 : 2 ≤ N / 2 := by omega
    have hpN : N / 2 + 1 ≤ N := by omega
    have me1 : (N / 2 - 1) * N + N = N / 2 * N := by
      have hpp : N / 2 - 1 + 1 = N / 2 := by omega
      calc (N / 2 - 1) * N + N = (N / 2 - 1 + 1) * N := (Nat.succ_mul _ N).symm
      _ = N / 2 * N := by rw [hpp]
    have me2 : N / 2 * N + N ≤ N * N := by
      have h' := Nat.mul_le_mul_right N hpN
      calc N / 2 * N + N = (N / 2 + 1) * N := (Nat.succ_mul _ N).symm
      _ ≤ N * N := h'
    have l1 : (N / 2 - 1) * N + (N / 2 - 1) < N * N := by omega
    have l2 : N / 2 * N + N / 2 < N * N := by omega
    have l3 : (N / 2 - 1) * N + N / 2 < N * N := by omega
    have l4 : N / 2 * N + (N / 2 - 1) < N * N := by omega
    have n12 : (N / 2 - 1) * N + (N / 2 - 1) ≠ N / 2 * N + N / 2 := by omega
    have n13 : (N / 2 - 1) * N + (N / 2 - 1) ≠ (N / 2 - 1) * N + N / 2 := by omega
    have n14 : (N / 2 - 1) * N + (N / 2 - 1) ≠ N / 2 * N + (N / 2 - 1) := by omega
    have n23 : N / 2 * N + N / 2 ≠ (N / 2 - 1) * N + N / 2 := by omega
    have n24 : N / 2 * N + N / 2 ≠ N / 2 * N + (N / 2 - 1) := by omega
    have n34 : (N / 2 - 1) * N + N / 2 ≠ N / 2 * N + (N / 2 - 1) := by omega
    have hst : (reset N coin).state =
        ((((List.replicate (N * N) (0 : Int)).set ((N / 2 - 1) * N + (N / 2 - 1)) 1).set
          (N / 2 * N + N / 2) 1).set ((N / 2 - 1) * N + N / 2) (-1)).set
          (N / 2 * N + (N / 2 - 1)) (-1) := rfl
    have hval := board4_getD (N * N) ((N / 2 - 1) * N + (N / 2 - 1)) (N / 2 * N + N / 2)
      ((N / 2 - 1) * N + N / 2) (N / 2 * N + (N / 2 - 1)) 1 1 (-1) (-1) l1 l2 l3 l4
    have hcnt := board4_counts (N * N) ((N / 2 - 1) * N + (N / 2 - 1)) (N / 2 * N + N / 2)
      ((N / 2 - 1) * N + N / 2) (N / 2 * N + (N / 2 - 1)) 1 1 (-1) (-1) l1 l2 l3 l4
      n12 n13 n14 n23 n24 n34 (by decide) (by decide) (by decide) (by decide)
    refine ⟨reset N coin, ?_, rfl, ?_, ?_, ?_, ?_, ?_, ?_, ?_, ?_, ?_⟩
    · unfold init_game
      rw [h0, if_neg Bool.false_ne_true, if_neg (by omega)]
    · rw [hst]; exact hcnt.2.2
    · rw [hst]; exact hcnt.1
    · rw [hst]; exact hcnt.2.1
    · rw [bget, hst, flat_natCast, hval]
      rw [if_neg (by omega), if_neg (by omega), if_neg (by omega), if_pos rfl]
      rfl
    · rw [bget, hst, flat_natCast, hval]
      rw [if_neg (by omega), if_neg (by omega), if_pos rfl]
      rfl
    · rw [bget, hst, flat_natCast, hval]
      rw [if_neg (by omega), if_pos rfl]
      rfl
    · rw [bget, hst, flat_natCast, hval]
      rw [if_pos rfl]
      rfl
    · intro r c hr hc hno
      rw [bget, hst, flat_natCast, hval]
      have hcol1 : N / 2 - 1 < N := by omega
      have hcol2 : N / 2 < N := by omega
      have hne4 : r * N + c ≠ N / 2 * N + (N / 2 - 1) := by
        intro he
        obtain ⟨her, hec⟩ := flat_nat_inj hc hcol1 he
        exact hno ⟨Or.inr her, Or.inl hec⟩
      have hne3 : r * N + c ≠ (N / 2 - 1) * N + N / 2 := by
        intro he
        obtain ⟨her, hec⟩ := flat_nat_inj hc hcol2 he
        exact hno ⟨Or.inl her, Or.inr hec⟩
      have hne2 : r * N + c ≠ N / 2 * N + N / 2 := by
        intro he
        obtain ⟨her, hec⟩ := flat_nat_inj hc hcol2 he
        exact hno ⟨Or.inr her, Or.inr hec⟩
      have hne1 : r * N + c ≠ (N / 2 - 1) * N + (N / 2 - 1) := by
        intro he
        obtain ⟨her, hec⟩ := flat_nat_inj hc hcol1 he
        exact hno ⟨Or.inl her, Or.inl hec⟩
      rw [if_neg hne4, if_neg hne3, if_neg hne2, if_neg hne1]
    · by_cases hcn : coin = true
      · rw [hcn]; rfl
      · have hcf : coin = false := by
          cases coin
          · rfl
          · exact absurd rfl hcn
        rw [hcf]; rfl

/-- Witness for C5: `N = 3` is rejected; `N = 6` yields the documented
start state with the `o` player when the coin is `true`. -/
theorem init_game_spec_witness :
    init_game 3 false = Except.error ConfigErr.configError ∧
    (init_game 6 true).toOption.isSome = true :=
  ⟨(init_game_spec 3 false).1 (Or.inl (by decide)), by decide⟩

/-! ### The ray walk of `step` -/

lemma ray_zero (s d : Int × Int) : ray s d 0 = s := by
  simp [ray]

lemma ray_one (s d : Int × Int) : (s.1 + d.1, s.2 + d.2) = ray s d 1 := by
  simp [ray]

lemma ray_shift (s d : Int × Int) (k j : Nat) : ray (ray s d k) d j = ray s d (k + j) := by
  unfold ray
  rw [Prod.mk.injEq]
  constructor <;> push_cast <;> ring

lemma neighbours_cases {d : Int × Int} (hd : d ∈ neighbours) :
    (d.1 = 1 ∨ d.1 = -1) ∨ (d.1 = 0 ∧ (d.2 = 1 ∨ d.2 = -1)) := by
  simp only [neighbours, List.mem_cons, List.not_mem_nil, or_false] at hd
  rcases hd with h | h | h | h | h | h | h | h <;> subst h <;> simp

lemma ray_escape {N : Nat} {s d : Int × Int} (hd : d ∈ neighbours)
    (hs : is_in_board N s = true) : is_in_board N (ray s d N) = false := by
  rw [is_in_board_iff] at hs
  rw [Bool.eq_false_iff]
  intro hc
  rw [is_in_board_iff] at hc
  unfold ray at hc
  simp only [] at hc
  rcases neighbours_cases hd with h1 | ⟨h0, h2⟩
  · rcases h1 with h | h <;> rw [h] at hc <;> omega
  · rcases h2 with h | h <;> rw [h0, h] at hc <;> omega

lemma ray_ne_start {s d : Int × Int} (hd : d ∈ neighbours) {j : Nat} (hj : 1 ≤ j) :
    ray s d j ≠ s := by
  intro he
  have h1 := congrArg Prod.fst he
  have h2 := congrArg Prod.snd he
  unfold ray at h1 h2
  simp only [] at h1 h2
  rcases neighbours_cases hd with h | ⟨h0, h⟩
  · rcases h with h' | h' <;> rw [h'] at h1 <;> omega
  · rcases h with h' | h' <;> rw [h'] at h2 <;> omega

lemma run_cons (s d : Int × Int) (n : Nat) (acc : List (Int × Int)) :
    (acc ++ [ray s d 1]) ++ (List.range n).map (fun j => ray (ray s d 1) d (j + 1)) =
      acc ++ (List.range (n + 1)).map (fun j => ray s d (j + 1)) := by
  rw [List.append_assoc, List.singleton_append, List.range_succ_eq_map, List.map_cons,
    List.map_map]
  congr 1
  congr 1
  apply List.map_congr_left
  intro j hj
  rw [ray_shift]
  simp only [Function.comp_apply]
  congr 1
  omega

lemma flip_scan_success {N : Nat} {b : List Int} {player : Int} {d : Int × Int}
    (hpl : player = 1 ∨ player = -1) :
    ∀ (m fuel : Nat) (s : Int × Int) (acc : List (Int × Int)), m + 1 ≤ fuel →
      (∀ j, 1 ≤ j → j ≤ m →
        is_in_board N (ray s d j) = true ∧ bget N b (ray s d j) = -player) →
      is_in_board N (ray s d (m + 1)) = true →
      bget N b (ray s d (m + 1)) = player →
      flip_scan N b player d fuel s true acc =
        (true, acc ++ (List.range m).map (fun j => ray s d (j + 1))) := by
  have hplne : player ≠ -player := by
    rcases hpl with h | h <;> rw [h] <;> decide
  intro m
  induction m with
  | zero =>
    intro fuel s acc hfuel hrun hin hanchor
    match fuel, hfuel with
    | fuel + 1, _ =>
      simp only [flip_scan, ray_one, if_true]
      rw [hin, if_pos rfl, hanchor, if_neg hplne, if_pos rfl]
      simp
  | succ n ih =>
    intro fuel s acc hfuel hrun hin hanchor
    match fuel, hfuel with
    | fuel + 1, hfuel =>
      have h1 := hrun 1 (le_refl 1) (by omega)
      simp only [flip_scan, ray_one, if_true]
      rw [h1.1, if_pos rfl, h1.2, if_pos rfl]
      have hrun' : ∀ j, 1 ≤ j → j ≤ n →
          is_in_board N (ray (ray s d 1) d j) = true ∧
          bget N b (ray (ray s d 1) d j) = -player := by
        intro j hj1 hj2
        rw [ray_shift]
        exact hrun (1 + j) (by omega) (by omega)
      have hin' : is_in_board N (ray (ray s d 1) d (n + 1)) = true := by
        rw [ray_shift]
        rw [show 1 + (n + 1) = n + 1 + 1 from by omega]
        exact hin
      have hanc' : bget N b (ray (ray s d 1) d (n + 1)) = player := by
        rw [ray_shift]
        rw [show 1 + (n + 1) = n + 1 + 1 from by omega]
        exact hanchor
      rw [ih fuel (ray s d 1) (acc ++ [ray s d 1]) (by omega) hrun' hin' hanc']
      rw [run_cons]

lemma flip_scan_fail {N : Nat} {b : List Int} {player : Int} {d : Int × Int} :
    ∀ (m fuel : Nat) (s : Int × Int) (acc : List (Int × Int)), m + 1 ≤ fuel →
      (∀ j, 1 ≤ j → j ≤ m →
        is_in_board N (ray s d j) = true ∧ bget N b (ray s d j) = -player) →
      (is_in_board N (ray s d (m + 1)) = false ∨
        (bget N b (ray s d (m + 1)) ≠ -player ∧ bget N b (ray s d (m + 1)) ≠ player)) →
      (flip_scan N b player d fuel s true acc).1 = false := by
  intro m
  induction m with
  | zero =>
    intro fuel s acc hfuel hrun hbreak
    match fuel, hfuel with
    | fuel + 1, _ =>
      simp only [flip_scan, ray_one, if_true]
      by_cases hin : is_in_board N (ray s d 1) = true
      · rcases hbreak with hb | ⟨hb1, hb2⟩
        · rw [hin] at hb
          cases hb
        · rw [hin, if_pos rfl, if_neg hb1, if_neg hb2]
      · rw [Bool.not_eq_true] at hin
        rw [hin]
        rw [if_neg Bool.false_ne_true]
  | succ n ih =>
    intro fuel s acc hfuel hrun hbreak
    match fuel, hfuel with
    | fuel + 1, hfuel =>
      have h1 := hrun 1 (le_refl 1) (by omega)
      simp only [flip_scan, ray_one, if_true]
      rw [h1.1, if_pos rfl, h1.2, if_pos rfl]
      have hrun' : ∀ j, 1 ≤ j → j ≤ n →
          is_in_board N (ray (ray s d 1) d j) = true ∧
          bget N b (ray (ray s d 1) d j) = -player := by
        intro j hj1 hj2
        rw [ray_shift]
        exact hrun (1 + j) (by omega) (by omega)
      have hbreak' : is_in_board N (ray (ray s d 1) d (n + 1)) = false ∨
          (bget N b (ray (ray s d 1) d (n + 1)) ≠ -player ∧
           bget N b (ray (ray s d 1) d (n + 1)) ≠ player) := by
        rw [ray_shift]
        rw [show 1 + (n + 1) = n + 1 + 1 from by omega]
        exact hbreak
      exact ih fuel (ray s d 1) (acc ++ [ray s d 1]) (by omega) hrun' hbreak'

lemma flip_scan_enter {N : Nat} {b : List Int} {player : Int} {d : Int × Int} {fuel : Nat}
    (s : Int × Int) :
    flip_scan N b player d (fuel + 1) s false [] =
      if is_in_board N (ray s d 1) = true then
        (if bget N b (ray s d 1) = -player then
          flip_scan N b player d fuel (ray s d 1) true [ray s d 1]
        else (false, []))
      else (false, []) := by
  simp [flip_scan, ray_one]

lemma flip_scan_success0 {N : Nat} {b : List Int} {player : Int} {d : Int × Int}
    (hpl : player = 1 ∨ player = -1) (m fuel : Nat) (s : Int × Int)
    (hm : 1 ≤ m) (hfuel : m + 1 ≤ fuel)
    (hrun : ∀ j, 1 ≤ j → j ≤ m →
      is_in_board N (ray s d j) = true ∧ bget N b (ray s d j) = -player)
    (hin : is_in_board N (ray s d (m + 1)) = true)
    (hanchor : bget N b (ray s d (m + 1)) = player) :
    flip_scan N b player d fuel s false [] =
      (true, (List.range m).map (fun j => ray s d (j + 1))) := by
  match fuel, hfuel with
  | fuel + 1, hfuel =>
    have h1 := hrun 1 (le_refl 1) hm
    rw [flip_scan_enter, if_pos h1.1, if_pos h1.2]
    have hrun' : ∀ j, 1 ≤ j → j ≤ m - 1 →
        is_in_board N (ray (ray s d 1) d j) = true ∧
        bget N b (ray (ray s d 1) d j) = -player := by
      intro j hj1 hj2
      rw [ray_shift]
      exact hrun (1 + j) (by omega) (by omega)
    have hin' : is_in_board N (ray (ray s d 1) d (m - 1 + 1)) = true := by
      rw [ray_shift, show 1 + (m - 1 + 1) = m + 1 from by omega]
      exact hin
    have hanc' : bget N b (ray (ray s d 1) d (m - 1 + 1)) = player := by
      rw [ray_shift, show 1 + (m - 1 + 1) = m + 1 from by omega]
      exact hanchor
    have hlist := run_cons s d (m - 1) ([] : List (Int × Int))
    rw [List.nil_append, List.nil_append] at hlist
    rw [show [ray s d 1] = ([] : List (Int × Int)) ++ [ray s d 1] from rfl]
    rw [flip_scan_success hpl (m - 1) fuel (ray s d 1) ([] ++ [ray s d 1]) (by omega)
      hrun' hin' hanc']
    rw [List.nil_append, hlist, show m - 1 + 1 = m from by omega]

lemma flip_scan_fail0 {N : Nat} {b : List Int} {player : Int} {d : Int × Int}
    (m fuel : Nat) (s : Int × Int)
    (hm : 1 ≤ m) (hfuel : m + 1 ≤ fuel)
    (hrun : ∀ j, 1 ≤ j → j ≤ m →
      is_in_board N (ray s d j) = true ∧ bget N b (ray s d j) = -player)
    (hbreak : is_in_board N (ray s d (m + 1)) = false ∨
      (bget N b (ray s d (m + 1)) ≠ -player ∧ bget N b (ray s d (m + 1)) ≠ player)) :
    (flip_scan N b player d fuel s false []).1 = false := by
  match fuel, hfuel with
  | fuel + 1, hfuel =>
    have h1 := hrun 1 (le_refl 1) hm
    rw [flip_scan_enter, if_pos h1.1, if_pos h1.2]
    have hrun' : ∀ j, 1 ≤ j → j ≤ m - 1 →
        is_in_board N (ray (ray s d 1) d j) = true ∧
        bget N b (ray (ray s d 1) d j) = -player := by
      intro j hj1 hj2
      rw [ray_shift]
      exact hrun (1 + j) (by omega) (by omega)
    have hbreak' : is_in_board N (ray (ray s d 1) d (m - 1 + 1)) = false ∨
        (bget N b (ray (ray s d 1) d (m - 1 + 1)) ≠ -player ∧
         bget N b (ray (ray s d 1) d (m - 1 + 1)) ≠ player) := by
      rw [ray_shift, show 1 + (m - 1 + 1) = m + 1 from by omega]
      exact hbreak
    exact flip_scan_fail (m - 1) fuel (ray s d 1) [ray s d 1] (by omega) hrun' hbreak'

lemma runOk_unique {N : Nat} {b : List Int} {player : Int} {start d : Int × Int} {m m' : Nat}
    (hpl : player = 1 ∨ player = -1)
    (h1 : RunOk N b player start d m) (h2 : RunOk N b player start d m') : m = m' := by
  have hplne : player ≠ -player := by
    rcases hpl with h | h <;> rw [h] <;> decide
  by_contra hne
  rcases Nat.lt_or_ge m m' with h | h
  · have ho := h2.2.1 (m + 1) (by omega) (by omega)
    rw [h1.2.2.2] at ho
    exact hplne ho.2
  · have ho := h1.2.1 (m' + 1) (by omega) (by omega)
    rw [h2.2.2.2] at ho
    exact hplne ho.2

/-- Complete characterisation of one direction of the ray walk of `step`:
either the spec's capture-run condition holds for a (unique) length `m` and
the walk returns exactly the cells of that bounded run, or no capture run
exists in this direction and the walk contributes no flips. -/
lemma dir_flips_char {N : Nat} {b : List Int} {player : Int} {start d : Int × Int}
    (hpl : player = 1 ∨ player = -1) (hd : d ∈ neighbours)
    (hs : is_in_board N start = true) :
    (∃ m, RunOk N b player start d m ∧
      dir_flips N b player start d = (List.range m).map (fun j => ray start d (j + 1))) ∨
    ((∀ m, ¬ RunOk N b player start d m) ∧ dir_flips N b player start d = []) := by
  have hplne : player ≠ -player := by
    rcases hpl with h | h <;> rw [h] <;> decide
  have hN1 : 1 ≤ N := by
    rw [is_in_board_iff] at hs
    omega
  have hstopN : ¬(is_in_board N (ray start d (N - 1 + 1)) = true ∧
      bget N b (ray start d (N - 1 + 1)) = -player) := by
    intro hcon
    have hesc := ray_escape hd hs
    rw [show N - 1 + 1 = N from by omega] at hcon
    rw [hcon.1] at hesc
    cases hesc
  have hex : ∃ k, ¬(is_in_board N (ray start d (k + 1)) = true ∧
      bget N b (ray start d (k + 1)) = -player) := ⟨N - 1, hstopN⟩
  have hkstop := Nat.find_spec hex
  have hkmin : ∀ j, 1 ≤ j → j ≤ Nat.find hex →
      is_in_board N (ray start d j) = true ∧ bget N b (ray start d j) = -player := by
    intro j h1 h2
    have hm := Nat.find_min hex (show j - 1 < Nat.find hex from by omega)
    rw [show j - 1 + 1 = j from by omega] at hm
    exact not_not.mp hm
  have hKN : Nat.find hex ≤ N - 1 := Nat.find_le hstopN
  obtain ⟨K, hKdef⟩ : ∃ K, Nat.find hex = K := ⟨Nat.find hex, rfl⟩
  rw [hKdef] at hkstop hkmin hKN
  by_cases hin : is_in_board N (ray start d (K + 1)) = true
  · by_cases hvp : bget N b (ray start d (K + 1)) = player
    · by_cases hK0 : K = 0
      · -- the very first cell of the ray holds the mover's token: no capture
        right
        have hvp1 : bget N b (ray start d 1) = player := by
          rw [hK0] at hvp
          simpa using hvp
        have hin1 : is_in_board N (ray start d 1) = true := by
          rw [hK0] at hin
          simpa using hin
        constructor
        · intro m hm
          have h1 := hm.2.1 1 (le_refl 1) hm.1
          rw [h1.2] at hvp1
          exact hplne hvp1.symm
        · unfold dir_flips
          have hscan : flip_scan N b player d (N + 1) start false [] = (false, []) := by
            rw [show N + 1 = N - 1 + 1 + 1 from by omega, flip_scan_enter, if_pos hin1,
              hvp1, if_neg hplne]
          rw [hscan]
          simp
      · -- a verified capture run of length `K`
        left
        refine ⟨K, ⟨by omega, hkmin, hin, hvp⟩, ?_⟩
        unfold dir_flips
        have hscan := flip_scan_success0 hpl (K) (N + 1) start (by omega)
          (by omega) hkmin hin hvp
        rw [hscan]
        simp
    · -- the run stops on a cell that is neither player's token: no capture
      right
      have hnot : bget N b (ray start d (K + 1)) ≠ -player := by
        intro hcon
        exact hkstop ⟨hin, hcon⟩
      constructor
      · intro m hm
        have hmK : m ≤ K := by
          by_contra hcon
          push_neg at hcon
          exact hkstop (hm.2.1 (K + 1) (by omega) (by omega))
        rcases Nat.lt_or_ge m (K) with hlt | hge
        · have ho := hkmin (m + 1) (by omega) (by omega)
          rw [hm.2.2.2] at ho
          exact hplne ho.2
        · have hmeq : m = K := by omega
          rw [hmeq] at hm
          exact hvp hm.2.2.2
      · unfold dir_flips
        by_cases hK0 : K = 0
        · have hin1 : is_in_board N (ray start d 1) = true := by
            rw [hK0] at hin
            simpa using hin
          have hnot1 : bget N b (ray start d 1) ≠ -player := by
            rw [hK0] at hnot
            simpa using hnot
          have hscan : flip_scan N b player d (N + 1) start false [] = (false, []) := by
            rw [show N + 1 = N - 1 + 1 + 1 from by omega, flip_scan_enter, if_pos hin1,
              if_neg hnot1]
          rw [hscan]
          simp
        · have hscan := flip_scan_fail0 (K) (N + 1) start (by omega)
            (by omega) hkmin (Or.inr ⟨hnot, hvp⟩)
          rw [Bool.eq_false_iff] at hscan
          rw [if_neg hscan]
  · -- the ray leaves the board before any anchor: no capture
    right
    rw [Bool.not_eq_true] at hin
    constructor
    · intro m hm
      have hmK : m ≤ K := by
        by_contra hcon
        push_neg at hcon
        have ho := hm.2.1 (K + 1) (by omega) (by omega)
        rw [ho.1] at hin
        cases hin
      rcases Nat.lt_or_ge m (K) with hlt | hge
      · have ho := hkmin (m + 1) (by omega) (by omega)
        rw [hm.2.2.2] at ho
        exact hplne ho.2
      · have hmeq : m = K := by omega
        have hanc := hm.2.2.1
        rw [hmeq] at hanc
        rw [hanc] at hin
        cases hin
    · unfold dir_flips
      by_cases hK0 : K = 0
      · have hin1 : is_in_board N (ray start d 1) = false := by
          rw [hK0] at hin
          simpa using hin
        have hscan : flip_scan N b player d (N + 1) start false [] = (false, []) := by
          rw [show N + 1 = N - 1 + 1 + 1 from by omega, flip_scan_enter, hin1,
            if_neg Bool.false_ne_true]
        rw [hscan]
        simp
      · have hscan := flip_scan_fail0 (K) (N + 1) start (by omega)
          (by omega) hkmin (Or.inl hin)
        rw [Bool.eq_false_iff] at hscan
        rw [if_neg hscan]

/-! ### The flips of `step` against the spec's capture rule -/

lemma bget_set_ray {N : Nat} {b : List Int} {target d : Int × Int} {v : Int}
    (htar : is_in_board N target = true) (hd : d ∈ neighbours) {j : Nat} (hj : 1 ≤ j)
    (hin : is_in_board N (ray target d j) = true) :
    bget N (b.set (flat N target) v) (ray target d j) = bget N b (ray target d j) := by
  unfold bget
  apply getD_set_ne
  intro he
  exact ray_ne_start hd hj (flat_inj hin htar he.symm)

lemma runOk_set_iff {N : Nat} {b : List Int} {player v : Int} {target d : Int × Int} {m : Nat}
    (htar : is_in_board N target = true) (hd : d ∈ neighbours) :
    RunOk N (b.set (flat N target) v) player target d m ↔ RunOk N b player target d m := by
  unfold RunOk
  constructor
  · rintro ⟨h1, h2, h3, h4⟩
    refine ⟨h1, ?_, h3, ?_⟩
    · intro j hj1 hj2
      have h := h2 j hj1 hj2
      exact ⟨h.1, by rw [← bget_set_ray htar hd hj1 h.1]; exact h.2⟩
    · rw [← bget_set_ray htar hd (by omega) h3]
      exact h4
  · rintro ⟨h1, h2, h3, h4⟩
    refine ⟨h1, ?_, h3, ?_⟩
    · intro j hj1 hj2
      have h := h2 j hj1 hj2
      exact ⟨h.1, by rw [bget_set_ray htar hd hj1 h.1]; exact h.2⟩
    · rw [bget_set_ray htar hd (by omega) h3]
      exact h4

lemma mem_foldl_append {α β : Type} (f : α → List β) :
    ∀ (l : List α) (acc : List β) (x : β),
      (x ∈ l.foldl (fun a d => a ++ f d) acc ↔ x ∈ acc ∨ ∃ d ∈ l, x ∈ f d) := by
  intro l
  induction l with
  | nil =>
    intro acc x
    simp
  | cons a t ih =>
    intro acc x
    rw [List.foldl_cons, ih]
    simp only [List.mem_append, List.mem_cons]
    constructor
    · rintro ((h | h) | ⟨d, hd, h⟩)
      · exact Or.inl h
      · exact Or.inr ⟨a, Or.inl rfl, h⟩
      · exact Or.inr ⟨d, Or.inr hd, h⟩
    · rintro (h | ⟨d, (rfl | hd), h⟩)
      · exact Or.inl (Or.inl h)
      · exact Or.inl (Or.inr h)
      · exact Or.inr ⟨d, hd, h⟩

/-- Legality makes the target a cell of the board. -/
lemma legal_target_in_board {g : Game} {action : Int}
    (hleg : is_legal_action g action = true) :
    action.toNat < g.N * g.N ∧
    is_in_board g.N (idx2coordinate g.N action.toNat) = true ∧
    flat g.N (idx2coordinate g.N action.toNat) = action.toNat := by
  have hb := (is_legal_action_iff g action).mp hleg
  obtain ⟨⟨h1, h2⟩, -, -⟩ := hb
  have hlt : action.toNat < g.N * g.N := by omega
  exact ⟨hlt, idx2coordinate_in_board hlt, flat_idx2coordinate _ _⟩

/-- Membership characterisation of the flip set computed by `step`: a cell
is flipped iff some direction has a capture run — judged on the *pre-move*
board — containing it. -/
lemma step_flips_iff {g : Game} {action : Int}
    (hpl : g.cur_player = 1 ∨ g.cur_player = -1)
    (hleg : is_legal_action g action = true) :
    ∀ c, (c ∈ step_flips g action ↔
      ∃ d ∈ neighbours, ∃ m,
        RunOk g.N g.state g.cur_player (idx2coordinate g.N action.toNat) d m ∧
        ∃ j, 1 ≤ j ∧ j ≤ m ∧ c = ray (idx2coordinate g.N action.toNat) d j) := by
  intro c
  obtain ⟨hlt, htar, hflat⟩ := legal_target_in_board hleg
  have hset : g.state.set action.toNat g.cur_player =
      g.state.set (flat g.N (idx2coordinate g.N action.toNat)) g.cur_player := by
    rw [hflat]
  unfold step_flips all_flips
  rw [mem_foldl_append]
  simp only [List.not_mem_nil, false_or]
  constructor
  · rintro ⟨d, hd, hc⟩
    rcases @dir_flips_char g.N (g.state.set action.toNat g.cur_player) g.cur_player
        (idx2coordinate g.N action.toNat) d hpl hd htar with ⟨m, hrun, heq⟩ | ⟨hnone, heq⟩
    · refine ⟨d, hd, m, ?_, ?_⟩
      · rw [hset] at hrun
        exact (runOk_set_iff htar hd).mp hrun
      · rw [heq] at hc
        simp only [List.mem_map, List.mem_range] at hc
        obtain ⟨j, hj, hje⟩ := hc
        exact ⟨j + 1, by omega, by omega, hje.symm⟩
    · rw [heq] at hc
      cases hc
  · rintro ⟨d, hd, m, hrun, j, hj1, hj2, hje⟩
    refine ⟨d, hd, ?_⟩
    rcases @dir_flips_char g.N (g.state.set action.toNat g.cur_player) g.cur_player
        (idx2coordinate g.N action.toNat) d hpl hd htar with ⟨m', hrun', heq⟩ | ⟨hnone, heq⟩
    · have hrun'' : RunOk g.N g.state g.cur_player (idx2coordinate g.N action.toNat) d m' := by
        rw [hset] at hrun'
        exact (runOk_set_iff htar hd).mp hrun'
      have hmm : m' = m := runOk_unique hpl hrun'' hrun
      rw [heq, hmm]
      simp only [List.mem_map, List.mem_range]
      refine ⟨j - 1, by omega, ?_⟩
      rw [show j - 1 + 1 = j from by omega]
      exact hje.symm
    · exfalso
      apply hnone m
      rw [hset]
      exact (runOk_set_iff htar hd).mpr hrun

/-- The accepted branch of `step`, written out. -/
lemma step_of_legal (g : Game) (action : Int) (hleg : is_legal_action g action = true) :
    step g action =
      (let b2 := (step_flips g action).foldl (fun b c => bset g.N b c g.cur_player)
          (g.state.set action.toNat g.cur_player)
       let done := b2.all (fun v => v != 0)
       let sum1 := b2.countP (fun v => v == -1)
       let sum2 := b2.countP (fun v => v == 1)
       let rs : Int × Option Nat :=
         if done = false then (((sum2 : Int) - (sum1 : Int)), g.steps_beyond_done)
         else if sum1 < sum2 then (1000, some 0)
         else (-1000, g.steps_beyond_done)
       ({ g with state := b2, cur_player := g.cur_player * -1, steps_beyond_done := rs.2 },
        Except.ok (b2, rs.1, done))) := by
  unfold step
  rw [if_neg (by rw [hleg]; decide)]

lemma step_state_of_legal (g : Game) (action : Int) (hleg : is_legal_action g action = true) :
    (step g action).1.state =
      (step_flips g action).foldl (fun b c => bset g.N b c g.cur_player)
        (g.state.set action.toNat g.cur_player) := by
  rw [step_of_legal g action hleg]

/-! ### C1: the flip set is the spec's ray-cast capture rule -/

/-- C1: on every accepted move the cells mutated by `step` beyond the
placed token are exactly `step_flips`, applied together to the placement
board after all directions were evaluated, and a cell belongs to
`step_flips` iff one of the 8 directions has, on the *pre-move* board, a
maximal run of consecutive opponent tokens through it that is immediately
bounded by a current-player token inside the board (`RunOk`); a ray that
leaves the board or meets an empty cell first contributes nothing. -/
theorem step_flips_ray_cast_rule (g : Game) (action : Int)
    (hpl : g.cur_player = 1 ∨ g.cur_player = -1)
    (hleg : is_legal_action g action = true) :
    (step g action).1.state =
      (step_flips g action).foldl (fun b c => bset g.N b c g.cur_player)
        (g.state.set action.toNat g.cur_player) ∧
    ∀ c, (c ∈ step_flips g action ↔
      ∃ d ∈ neighbours, ∃ m,
        RunOk g.N g.state g.cur_player (idx2coordinate g.N action.toNat) d m ∧
        ∃ j, 1 ≤ j ∧ j ≤ m ∧ c = ray (idx2coordinate g.N action.toNat) d j) :=
  ⟨step_state_of_legal g action hleg, step_flips_iff hpl hleg⟩

/-- Witness for C1: on the start board with `o` to move, action 8 (cell
`(2,0)`) captures exactly the cell `(2,1)`. -/
theorem step_flips_ray_cast_rule_witness :
    ((2 : Int), (1 : Int)) ∈ step_flips (reset 4 true) 8 ↔
      ∃ d ∈ neighbours, ∃ m,
        RunOk (reset 4 true).N (reset 4 true).state (reset 4 true).cur_player
          (idx2coordinate (reset 4 true).N (Int.toNat 8)) d m ∧
        ∃ j, 1 ≤ j ∧ j ≤ m ∧
          ((2 : Int), (1 : Int)) = ray (idx2coordinate (reset 4 true).N (Int.toNat 8)) d j :=
  (step_flips_ray_cast_rule (reset 4 true) 8 (by decide) (by decide)).2 (2, 1)

/-! ### Board-level effects of the flip fold -/

lemma flat_lt {N : Nat} {c : Int × Int} (h : is_in_board N c = true) : flat N c < N * N := by
  rw [is_in_board_iff] at h
  have h1 : c.1.toNat ≤ N - 1 := by omega
  have h2 : c.2.toNat < N := by omega
  have hN : 1 ≤ N := by omega
  have h3 : c.1.toNat * N ≤ (N - 1) * N := Nat.mul_le_mul_right N h1
  have h4 : (N - 1) * N + N = N * N := by
    calc (N - 1) * N + N = (N - 1 + 1) * N := (Nat.succ_mul _ N).symm
    _ = N * N := by rw [show N - 1 + 1 = N from by omega]
  unfold flat
  omega

lemma foldl_bset_length (N : Nat) (v : Int) :
    ∀ (l : List (Int × Int)) (b : List Int),
      (l.foldl (fun b c => bset N b c v) b).length = b.length := by
  intro l
  induction l with
  | nil => intro b; rfl
  | cons c t ih =>
    intro b
    rw [List.foldl_cons, ih]
    simp [bset]

lemma foldl_bset_getD (N : Nat) (v : Int) :
    ∀ (l : List (Int × Int)) (b : List Int) (q : Nat),
      (∀ c ∈ l, flat N c < b.length) →
      ((l.foldl (fun b c => bset N b c v) b).getD q 0 =
        if ∃ c ∈ l, flat N c = q then v else b.getD q 0) := by
  intro l
  induction l with
  | nil =>
    intro b q hl
    simp
  | cons c t ih =>
    intro b q hl
    rw [List.foldl_cons]
    have hlen : ∀ x ∈ t, flat N x < (bset N b c v).length := by
      intro x hx
      have := hl x (List.mem_cons_of_mem c hx)
      simpa [bset] using this
    rw [ih (bset N b c v) q hlen]
    by_cases hmem : ∃ x ∈ t, flat N x = q
    · rw [if_pos hmem, if_pos ?_]
      obtain ⟨x, hx, he⟩ := hmem
      exact ⟨x, List.mem_cons_of_mem c hx, he⟩
    · rw [if_neg hmem]
      by_cases hce : flat N c = q
      · rw [if_pos ⟨c, List.mem_cons_self c t, hce⟩]
        unfold bset
        rw [← hce]
        exact getD_set_self b v (hl c (List.mem_cons_self c t))
      · rw [if_neg ?_]
        · unfold bset
          exact getD_set_ne b v hce
        · rintro ⟨x, hx, he⟩
          rcases List.mem_cons.mp hx with rfl | hx
          · exact hce he
          · exact hmem ⟨x, hx, he⟩

lemma countP_foldl_bset (N : Nat) (v : Int) (q : Int → Bool) (hqv : q v = false) :
    ∀ (l : List (Int × Int)) (b : List Int),
      (∀ c ∈ l, flat N c < b.length ∧ q (bget N b c) = false) →
      (l.foldl (fun b c => bset N b c v) b).countP q = b.countP q := by
  intro l
  induction l with
  | nil =>
    intro b hl
    rfl
  | cons c t ih =>
    intro b hl
    obtain ⟨hcl, hcv⟩ := hl c (List.mem_cons_self c t)
    rw [List.foldl_cons]
    have hset : (bset N b c v).countP q = b.countP q := by
      unfold bset
      rw [List.countP_set q b (flat N c) v hcl]
      rw [← List.getD_eq_getElem b 0 hcl]
      have hbg : b.getD (flat N c) 0 = bget N b c := rfl
      rw [hbg, hcv, hqv]
      simp
    rw [ih (bset N b c v) ?_, hset]
    intro x hx
    obtain ⟨hxl, hxv⟩ := hl x (List.mem_cons_of_mem c hx)
    constructor
    · simpa [bset] using hxl
    · by_cases he : flat N c = flat N x
      · have : bget N (bset N b c v) x = v := by
          unfold bget bset
          rw [← he]
          exact getD_set_self b v hcl
        rw [this, hqv]
      · have : bget N (bset N b c v) x = bget N b x := by
          unfold bget bset
          exact getD_set_ne b v he
        rw [this, hxv]

lemma all_ne_iff_countP_eq_zero (l : List Int) :
    ((l.all fun v => v != 0) = true) ↔ l.countP (fun v => v == 0) = 0 := by
  rw [List.all_eq_true, List.countP_eq_zero]
  constructor
  · intro h a ha
    have h2 := h a ha
    rw [bne_iff_ne] at h2
    simp [h2]
  · intro h a ha
    have h2 := h a ha
    rw [bne_iff_ne]
    intro hc
    exact h2 (by simp [hc])

lemma countP_zero_add_ne (l : List Int) :
    l.countP (fun v => v == 0) + l.countP (fun v => v != 0) = l.length := by
  induction l with
  | nil => rfl
  | cons a t ih =>
    have hbne : (a != 0) = !(a == 0) := rfl
    rw [List.countP_cons, List.countP_cons, hbne, List.length_cons]
    cases hq : (a == 0) <;> simp [hq] <;> omega

/-! ### C4: terminal flag and reward of an accepted move -/

/-- C4: on every accepted move, the returned terminal flag is true iff no
empty cell remains on the post-move board; while non-terminal the returned
reward is (count of PlayerB tokens) − (count of PlayerA tokens); on
termination it is +1000 when PlayerB's count exceeds PlayerA's and −1000
otherwise, a tie landing in the −1000 branch. -/
theorem step_terminal_reward (g : Game) (action : Int)
    (hleg : is_legal_action g action = true) :
    ∃ st r dn, (step g action).2 = Except.ok (st, r, dn) ∧
      st = (step g action).1.state ∧
      (dn = true ↔ st.countP (fun v => v == 0) = 0) ∧
      (dn = false →
        r = (st.countP (fun v => v == PlayerB) : Int) -
          (st.countP (fun v => v == PlayerA) : Int)) ∧
      (dn = true → st.countP (fun v => v == PlayerA) < st.countP (fun v => v == PlayerB) →
        r = 1000) ∧
      (dn = true → st.countP (fun v => v == PlayerB) ≤ st.countP (fun v => v == PlayerA) →
        r = -1000) := by
  have hstep := step_of_legal g action hleg
  by_cases hdn : (((step_flips g action).foldl (fun b c => bset g.N b c g.cur_player)
      (g.state.set action.toNat g.cur_player)).all fun v => v != 0) = false
  · refine ⟨_, _, _, by rw [hstep], by rw [hstep], ?_, ?_, ?_, ?_⟩
    · exact all_ne_iff_countP_eq_zero _
    · intro hd
      rw [if_pos hdn]
      rfl
    · intro hd hcmp
      rw [hd] at hdn
      simp at hdn
    · intro hd hcmp
      rw [hd] at hdn
      simp at hdn
  · by_cases hlt : (((step_flips g action).foldl (fun b c => bset g.N b c g.cur_player)
        (g.state.set action.toNat g.cur_player)).countP fun v => v == -1) <
        (((step_flips g action).foldl (fun b c => bset g.N b c g.cur_player)
        (g.state.set action.toNat g.cur_player)).countP fun v => v == 1)
    · refine ⟨_, _, _, by rw [hstep], by rw [hstep], ?_, ?_, ?_, ?_⟩
      · exact all_ne_iff_countP_eq_zero _
      · intro hd
        exact absurd hd hdn
      · intro hd hcmp
        rw [if_neg hdn, if_pos hlt]
      · intro hd hcmp
        have h2 : (((step_flips g action).foldl (fun b c => bset g.N b c g.cur_player)
            (g.state.set action.toNat g.cur_player)).countP fun v => v == 1) ≤
            (((step_flips g action).foldl (fun b c => bset g.N b c g.cur_player)
            (g.state.set action.toNat g.cur_player)).countP fun v => v == -1) := hcmp
        omega
    · refine ⟨_, _, _, by rw [hstep], by rw [hstep], ?_, ?_, ?_, ?_⟩
      · exact all_ne_iff_countP_eq_zero _
      · intro hd
        exact absurd hd hdn
      · intro hd hcmp
        have h2 : (((step_flips g action).foldl (fun b c => bset g.N b c g.cur_player)
            (g.state.set action.toNat g.cur_player)).countP fun v => v == -1) <
            (((step_flips g action).foldl (fun b c => bset g.N b c g.cur_player)
            (g.state.set action.toNat g.cur_player)).countP fun v => v == 1) := hcmp
        exact absurd h2 hlt
      · intro hd hcmp
        rw [if_neg hdn, if_neg hlt]

/-- Witness for C4 at the initial board with action 1 (non-terminal). -/
theorem step_terminal_reward_witness :
    ∃ st r dn, (step (reset 4 true) 1).2 = Except.ok (st, r, dn) ∧
      st = (step (reset 4 true) 1).1.state ∧
      (dn = true ↔ st.countP (fun v => v == 0) = 0) ∧
      (dn = false →
        r = (st.countP (fun v => v == PlayerB) : Int) -
          (st.countP (fun v => v == PlayerA) : Int)) ∧
      (dn = true → st.countP (fun v => v == PlayerA) < st.countP (fun v => v == PlayerB) →
        r = 1000) ∧
      (dn = true → st.countP (fun v => v == PlayerB) ≤ st.countP (fun v => v == PlayerA) →
        r = -1000) :=
  step_terminal_reward (reset 4 true) 1 (by decide)

/-! ### C7: occupancy counting -/

/-- C7: every accepted move turns exactly one empty cell (the target) into
an occupied one, and flips only change ownership; so the empty-cell count
drops by exactly 1 and the occupied count rises by exactly 1. -/
theorem step_occupancy (g : Game) (action : Int) (hwf : WF g)
    (hleg : is_legal_action g action = true) :
    (step g action).1.state.countP (fun v => v == 0) + 1 =
      g.state.countP (fun v => v == 0) ∧
    (step g action).1.state.countP (fun v => v != 0) =
      g.state.countP (fun v => v != 0) + 1 ∧
    (step g action).1.state.length = g.state.length := by
  obtain ⟨hlen, hpl⟩ := hwf
  obtain ⟨hlt, htar, hflat⟩ := legal_target_in_board hleg
  have hq0 : ((g.cur_player == 0) = false) := by
    rcases hpl with h | h <;> rw [h] <;> decide
  have hcell : g.state.getD action.toNat 0 = 0 := ((is_legal_action_iff g action).mp hleg).2.1
  have hltlen : action.toNat < g.state.length := by
    rw [hlen]
    exact hlt
  have hpos : 0 < g.state.countP (fun v => v == 0) := by
    rw [List.countP_pos_iff]
    refine ⟨g.state[action.toNat], List.getElem_mem hltlen, ?_⟩
    rw [← List.getD_eq_getElem g.state 0 hltlen, hcell]
    decide
  have hb1 := List.countP_set (fun v => v == 0) g.state action.toNat g.cur_player hltlen
  rw [← List.getD_eq_getElem g.state 0 hltlen, hcell, hq0] at hb1
  simp only [beq_self_eq_true, if_true, Bool.false_eq_true, if_false, Nat.add_zero] at hb1
  have hflips : ∀ c ∈ step_flips g action,
      flat g.N c < (g.state.set action.toNat g.cur_player).length ∧
      ((bget g.N (g.state.set action.toNat g.cur_player) c == 0) = false) := by
    intro c hc
    obtain ⟨d, hd, m, hrun, j, hj1, hj2, hje⟩ := (step_flips_iff hpl hleg c).mp hc
    have hcin := (hrun.2.1 j hj1 hj2).1
    have hcval := (hrun.2.1 j hj1 hj2).2
    constructor
    · rw [List.length_set, hlen]
      rw [hje]
      exact flat_lt hcin
    · have hsetf : g.state.set action.toNat g.cur_player =
          g.state.set (flat g.N (idx2coordinate g.N action.toNat)) g.cur_player := by
        rw [hflat]
      rw [hje, hsetf, bget_set_ray htar hd hj1 hcin, hcval]
      rcases hpl with h | h <;> rw [h] <;> decide
  have hfold := countP_foldl_bset g.N g.cur_player (fun v => v == 0) hq0
    (step_flips g action) (g.state.set action.toNat g.cur_player) hflips
  have hemp : (step g action).1.state.countP (fun v => v == 0) + 1 =
      g.state.countP (fun v => v == 0) := by
    rw [step_state_of_legal g action hleg, hfold]
    omega
  have hlen2 : (step g action).1.state.length = g.state.length := by
    rw [step_state_of_legal g action hleg, foldl_bset_length, List.length_set]
  refine ⟨hemp, ?_, hlen2⟩
  have hsum1 := countP_zero_add_ne (step g action).1.state
  have hsum2 := countP_zero_add_ne g.state
  omega

/-- Witness for C7 at the initial board with the capturing action 8. -/
theorem step_occupancy_witness :
    (step (reset 4 true) 8).1.state.countP (fun v => v == 0) + 1 =
      (reset 4 true).state.countP (fun v => v == 0) :=
  (step_occupancy (reset 4 true) 8 ⟨by decide, by decide⟩ (by decide)).1

/-! ### C10: frame property of an accepted move -/

/-- C10: on every accepted move the only cells that change are the target
(which goes from empty to the mover's token) and flipped cells: each
flipped cell lies on one of the eight rays from the target and held the
opponent's token on the pre-move board, and now holds the mover's token.
Every other cell — in particular every cell already holding the mover's
token — keeps its pre-move value. -/
theorem step_frame (g : Game) (action : Int) (hwf : WF g)
    (hleg : is_legal_action g action = true) :
    ∀ p, is_in_board g.N p = true →
      bget g.N (step g action).1.state p ≠ bget g.N g.state p →
      (p = idx2coordinate g.N action.toNat ∧ bget g.N g.state p = 0 ∧
        bget g.N (step g action).1.state p = g.cur_player) ∨
      (bget g.N g.state p = -g.cur_player ∧
        bget g.N (step g action).1.state p = g.cur_player ∧
        ∃ d ∈ neighbours, ∃ j, 1 ≤ j ∧
          p = ray (idx2coordinate g.N action.toNat) d j) := by
  obtain ⟨hlen, hpl⟩ := hwf
  obtain ⟨hlt, htar, hflat⟩ := legal_target_in_board hleg
  have hcell : g.state.getD action.toNat 0 = 0 := ((is_legal_action_iff g action).mp hleg).2.1
  intro p hp hne
  have hflipsin : ∀ c ∈ step_flips g action, is_in_board g.N c = true := by
    intro c hc
    obtain ⟨d, hd, m, hrun, j, hj1, hj2, hje⟩ := (step_flips_iff hpl hleg c).mp hc
    rw [hje]
    exact (hrun.2.1 j hj1 hj2).1
  have hflipslen : ∀ c ∈ step_flips g action,
      flat g.N c < (g.state.set action.toNat g.cur_player).length := by
    intro c hc
    rw [List.length_set, hlen]
    exact flat_lt (hflipsin c hc)
  have hpost : bget g.N (step g action).1.state p =
      if ∃ c ∈ step_flips g action, flat g.N c = flat g.N p then g.cur_player
      else (g.state.set action.toNat g.cur_player).getD (flat g.N p) 0 := by
    rw [step_state_of_legal g action hleg]
    exact foldl_bset_getD g.N g.cur_player (step_flips g action) _ (flat g.N p) hflipslen
  by_cases hmem : ∃ c ∈ step_flips g action, flat g.N c = flat g.N p
  · right
    rw [if_pos hmem] at hpost
    obtain ⟨c, hc, hce⟩ := hmem
    have hcp : c = p := flat_inj (hflipsin c hc) hp hce
    have hcmem : p ∈ step_flips g action := by
      rw [← hcp]
      exact hc
    obtain ⟨d, hd, m, hrun, j, hj1, hj2, hje⟩ := (step_flips_iff hpl hleg p).mp hcmem
    refine ⟨?_, hpost, d, hd, j, hj1, hje⟩
    rw [hje]
    exact (hrun.2.1 j hj1 hj2).2
  · left
    rw [if_neg hmem] at hpost
    by_cases hpt : flat g.N p = action.toNat
    · have hpe : p = idx2coordinate g.N action.toNat := by
        apply flat_inj hp htar
        rw [hflat, hpt]
      refine ⟨hpe, ?_, ?_⟩
      · show g.state.getD (flat g.N p) 0 = 0
        rw [hpt]
        exact hcell
      · rw [hpost, hpt]
        exact getD_set_self g.state g.cur_player (by rw [hlen]; exact hlt)
    · exfalso
      apply hne
      rw [hpost]
      exact getD_set_ne g.state g.cur_player (fun he => hpt he.symm)

/-- Witness for C10: on the start board the capturing move at `(2,0)`
changes the flipped cell `(2,1)`, which lay on a ray and held `x`. -/
theorem step_frame_witness :
    ((2 : Int), (1 : Int)) = idx2coordinate (reset 4 true).N (Int.toNat 8) ∧
      bget (reset 4 true).N (reset 4 true).state (2, 1) = 0 ∧
      bget (reset 4 true).N (step (reset 4 true) 8).1.state (2, 1) =
        (reset 4 true).cur_player ∨
    (bget (reset 4 true).N (reset 4 true).state (2, 1) = -(reset 4 true).cur_player ∧
      bget (reset 4 true).N (step (reset 4 true) 8).1.state (2, 1) =
        (reset 4 true).cur_player ∧
      ∃ d ∈ neighbours, ∃ j, 1 ≤ j ∧
        ((2 : Int), (1 : Int)) = ray (idx2coordinate (reset 4 true).N (Int.toNat 8)) d j) :=
  step_frame (reset 4 true) 8 ⟨by decide, by decide⟩ (by decide) (2, 1) (by decide) (by decide)

/-! ### C9: the interactive session crashes on an illegal selection -/

/-- C9 (bug evidence): a fully reachable interactive session on the `N = 4`
board crashes.  With `o` drawn as starting player, `o` selects `(0,1)` with
RIGHT, ENTER (a legal move).  The `x` player then presses DOWN, DOWN, DOWN,
RIGHT — the cursor reaches the empty cell `(3,1)` — and UP: the cursor
slides through the occupied cells `(2,1)`, `(1,1)` onto `(0,1)` and the
walk leaves the board, leaving the cursor parked on the occupied cell
`(0,1)`.  ENTER then submits an illegal action: `step` reports it and
returns the bare `False` with the engine state untouched, `play` forwards
that `False`, and the module-level
`state, reward, done, _ = game.play(interactive=True)` unpacking raises a
`TypeError`, ending the session instead of re-prompting the same player. -/
theorem session_crashes_on_illegal_selection :
    session 5 (reset 4 true)
      [Key.right, Key.enter, Key.down, Key.down, Key.down, Key.right, Key.up, Key.enter] =
      SessionOutcome.crashTypeErrorUnpack ∧
    play_cursor (step (reset 4 true) 1).1
      [Key.down, Key.down, Key.down, Key.right, Key.up, Key.enter] =
      PlayOut.played (step (reset 4 true) 1).1 PlayRet.retFalse [] ∧
    is_legal_action (reset 4 true) 1 = true := by
  refine ⟨?_, ?_, ?_⟩ <;> decide

end Reversi
